import Mathlib

/-!
Verification of the awstail CloudWatch log streamer (`src/index.ts`).

The TypeScript source is shallowly embedded: strings become `List Char`,
JavaScript numbers become `Nat`/`Int`, optional SDK fields become `Option`,
and the two fetch loops become explicit functions on batches / response
chains.  Each definition mirrors the corresponding function in
`src/index.ts`; spec-side reformulations are suffixed `Spec`.
-/

/-- Model of a CloudWatch `FilteredLogEvent`: an optional timestamp in
milliseconds since the epoch and a raw message. -/
structure LogEvent where
  timestamp : Option Nat
  message : List Char
deriving Repr, DecidableEq

/-- Timestamp with the `?? 0` default applied, as in
`e.timestamp ?? 0` (index.ts line 433). -/
def eventTs (e : LogEvent) : Nat := e.timestamp.getD 0

/-- Model of `Math.max(...xs)` applied to a list of natural numbers
(the call sites only use it on non-empty lists of timestamps). -/
def mathMax (l : List Nat) : Nat := l.foldl Nat.max 0

/-- Cursor update of one iteration of `streamLogs` (index.ts lines
430-437): a non-empty batch moves the cursor to the maximum event
timestamp plus one; an empty or absent batch leaves it unchanged. -/
def nextCursor (cursor : Nat) (events : Option (List LogEvent)) : Nat :=
  match events with
  | none => cursor
  | some evs => if evs.isEmpty then cursor else mathMax (evs.map eventTs) + 1

/-- Observable actions of one iteration of the `streamLogs` loop body:
assigning `currentStartTime`, yielding an event, and the poll sleep. -/
inductive StreamAction where
  | setCursor (n : Nat)
  | emit (e : LogEvent)
  | sleep
deriving Repr, DecidableEq

/-- Trace of one iteration of the `streamLogs` loop body (index.ts lines
421-440): on a non-empty batch the cursor assignment happens first, then
every event of the batch is yielded in batch order, then the loop sleeps;
otherwise the iteration only sleeps. -/
def iterTrace (cursor : Nat) (events : Option (List LogEvent)) :
    List StreamAction :=
  (match events with
   | none => []
   | some evs =>
     if evs.isEmpty then []
     else StreamAction.setCursor (nextCursor cursor (some evs)) ::
       evs.map StreamAction.emit) ++ [StreamAction.sleep]

/-- Model of one `FilterLogEvents` response page: the optional events
array and the optional continuation token. -/
structure Page where
  events : Option (List LogEvent)
  nextToken : Option (List Char)
deriving Repr, DecidableEq

/-- Events contributed by one response in `fetchLogs`
(`if (response.events?.length) events.push(...response.events)`,
index.ts lines 399-401). -/
def pageEvents (p : Page) : List LogEvent :=
  match p.events with
  | some es => if es.isEmpty then [] else es
  | none => []

/-- Accumulation loop of `fetchLogs` (index.ts lines 395-403) run against
a source whose successive responses are the given list of pages: each
response's events are appended and the loop continues exactly while the
response carries a continuation token. -/
def fetchLoop : List Page → List LogEvent
  | [] => []
  | p :: rest =>
    match p.nextToken with
    | none => pageEvents p
    | some _ => pageEvents p ++ fetchLoop rest

/-- Response chain shape assumed by claim C4: the list of responses is
non-empty, every response before the last carries a continuation token,
and the last one does not. -/
def isChain : List Page → Bool
  | [] => false
  | [p] => p.nextToken.isNone
  | p :: q :: rest => p.nextToken.isSome && isChain (q :: rest)

/-- Tests whether the first list begins the second one (character by
character); `hasPre p l` models "`l` starts with `p`". -/
def hasPre : List Char → List Char → Bool
  | [], _ => true
  | _ :: _, [] => false
  | p :: ps, x :: xs => p = x && hasPre ps xs

/-- Model of JavaScript `String.prototype.includes`: substring
containment. -/
def containsSub : List Char → List Char → Bool
  | [], pat => pat.isEmpty
  | c :: t, pat => hasPre pat (c :: t) || containsSub t pat

/-- Model of JavaScript `String.prototype.toLowerCase` on the ASCII
fragment the tool manipulates. -/
def lowerStr (s : List Char) : List Char := s.map Char.toLower

/-- Live filter state of `InteractiveFilter` (index.ts lines 84-90). -/
structure FilterState where
  pattern : List Char
  isActive : Bool
deriving Repr, DecidableEq

/-- Initial filter state: empty pattern, inactive (index.ts line 90). -/
def initFilterState : FilterState := ⟨[], false⟩

/-- Model of `InteractiveFilter.addToFilter` (index.ts lines 136-140). -/
def addToFilter (st : FilterState) (c : Char) : FilterState :=
  { pattern := st.pattern ++ [c], isActive := true }

/-- Model of `InteractiveFilter.handleBackspace` (index.ts lines
142-150): only acts when the pattern is non-empty; drops the last
character and deactivates exactly when the pattern becomes empty. -/
def handleBackspace (st : FilterState) : FilterState :=
  if st.pattern.length > 0 then
    let p := st.pattern.dropLast
    { pattern := p, isActive := if p.length = 0 then false else st.isActive }
  else st

/-- Model of `InteractiveFilter.handleDelete` (index.ts lines 152-155):
delegates to backspace. -/
def handleDelete (st : FilterState) : FilterState := handleBackspace st

/-- Model of `InteractiveFilter.clearFilter` (index.ts lines 157-161). -/
def clearFilter (_ : FilterState) : FilterState :=
  { pattern := [], isActive := false }

/-- Control characters used by the keystroke dispatcher. -/
def ctrlC : Char := Char.ofNat 3
/-- Backspace byte 0x7f. -/
def delChar : Char := Char.ofNat 127
/-- Backspace byte 0x08. -/
def bsChar : Char := Char.ofNat 8
/-- Escape byte 0x1b. -/
def escChar : Char := Char.ofNat 27
/-- Escape sequence sent by the Delete key. -/
def deleteSeq : List Char := [escChar, '[', '3', '~']

/-- Effect of `InteractiveFilter.handleKeyPress` (index.ts lines 113-134)
on the filter state.  Ctrl+C exits the process without touching the
state, and an unrecognised key string is a no-op (the dispatch has no
else branch). -/
def handleKeyPress (st : FilterState) (key : List Char) : FilterState :=
  if key = [ctrlC] then st
  else if key = [delChar] ∨ key = [bsChar] then handleBackspace st
  else if key = deleteSeq then handleDelete st
  else if key = [escChar] then clearFilter st
  else
    match key with
    | [c] => if ' ' ≤ c ∧ c ≤ '~' then addToFilter st c else st
    | _ => st

/-- State reached after a sequence of key strings starting from the
initial filter state. -/
def runKeys (keys : List (List Char)) : FilterState :=
  keys.foldl handleKeyPress initFilterState

/-- Model of `InteractiveFilter.shouldDimLine` (index.ts lines 174-181). -/
def shouldDimLine (st : FilterState) (message : List Char) : Bool :=
  if !st.isActive || st.pattern.isEmpty then false
  else !(containsSub (lowerStr message) (lowerStr st.pattern))

/-- Model of `extractLogLevel` (index.ts lines 264-274): a chain of
`message.includes` tests, first match wins, three-space blank tag when
nothing matches. -/
def extractLogLevel (message : List Char) : List Char :=
  if containsSub message "ERROR".toList then "ERR".toList
  else if containsSub message "WARN".toList then "WRN".toList
  else if containsSub message "INFO".toList then "INF".toList
  else if containsSub message "DEBUG".toList then "DBG".toList
  else if containsSub message "START RequestId:".toList then "STR".toList
  else if containsSub message "END RequestId:".toList then "END".toList
  else if containsSub message "REPORT RequestId:".toList then "RPT".toList
  else if containsSub message "INIT_START".toList then "INI".toList
  else "   ".toList

/-- Ordered marker/tag table stated by the spec for the level
classifier. -/
def levelTable : List (List Char × List Char) :=
  [("ERROR".toList, "ERR".toList),
   ("WARN".toList, "WRN".toList),
   ("INFO".toList, "INF".toList),
   ("DEBUG".toList, "DBG".toList),
   ("START RequestId:".toList, "STR".toList),
   ("END RequestId:".toList, "END".toList),
   ("REPORT RequestId:".toList, "RPT".toList),
   ("INIT_START".toList, "INI".toList)]

/-- Level classifier as the spec words it: scan the ordered table,
first matching marker wins, blank tag when none matches. -/
def extractLogLevelSpec (message : List Char) : List Char :=
  match levelTable.find? (fun p => containsSub message p.1) with
  | some p => p.2
  | none => "   ".toList

/-- Character class `[a-f0-9-]` of the id captured after the
`RequestId: ` marker. -/
def isIdChar (c : Char) : Bool :=
  ('a' ≤ c && c ≤ 'f') || ('0' ≤ c && c ≤ '9') || c = '-'

/-- Character class `[a-f0-9]` of the UUID regex. -/
def isHexChar (c : Char) : Bool :=
  ('a' ≤ c && c ≤ 'f') || ('0' ≤ c && c ≤ '9')

/-- Literal marker of the first regex in `extractRequestId`. -/
def reqIdMarker : List Char := "RequestId: ".toList

/-- Removes the first list from the front of the second, failing when it
does not begin it. -/
def dropPre : List Char → List Char → Option (List Char)
  | [], l => some l
  | _ :: _, [] => none
  | p :: ps, x :: xs => if p = x then dropPre ps xs else none

/-- Leftmost match of `/RequestId: ([a-f0-9-]+)/` (index.ts line 247):
scans for the first position where the literal marker is followed by at
least one id character, and returns the greedily captured id run. -/
def matchReqId : List Char → Option (List Char)
  | [] => none
  | c :: cs =>
    match dropPre reqIdMarker (c :: cs) with
    | some rest =>
      let id := rest.takeWhile isIdChar
      if id.isEmpty then matchReqId cs else some id
    | none => matchReqId cs

/-- Consumes exactly `n` hex characters, returning them and the rest. -/
def takeHex : Nat → List Char → Option (List Char × List Char)
  | 0, l => some ([], l)
  | _ + 1, [] => none
  | n + 1, c :: cs =>
    if isHexChar c then (takeHex n cs).map (fun p => (c :: p.1, p.2))
    else none

/-- Consumes a literal dash. -/
def expectDash : List Char → Option (List Char)
  | [] => none
  | c :: rest => if c = '-' then some rest else none

/-- Hex-run lengths of the UUID regex segments. -/
def uuidSegLens : List Nat := [8, 4, 4, 4, 12]

/-- Matches dash-separated fixed-length hex runs at the start of the
list, returning the matched characters. -/
def uuidSegs : List Nat → List Char → Option (List Char)
  | [], _ => some []
  | [n], l => (takeHex n l).map (fun p => p.1)
  | n :: m :: ns, l =>
    match takeHex n l with
    | none => none
    | some (s, r) =>
      match expectDash r with
      | none => none
      | some r2 =>
        match uuidSegs (m :: ns) r2 with
        | none => none
        | some tail => some (s ++ '-' :: tail)

/-- Match of the UUID regex
`/([a-f0-9]{8}-[a-f0-9]{4}-[a-f0-9]{4}-[a-f0-9]{4}-[a-f0-9]{12})/`
anchored at the start of the list, returning the 36 matched
characters. -/
def uuidAt (l : List Char) : Option (List Char) := uuidSegs uuidSegLens l

/-- Leftmost match of the bare UUID regex (index.ts lines 253-255). -/
def findUUID : List Char → Option (List Char)
  | [] => none
  | c :: cs =>
    match uuidAt (c :: cs) with
    | some u => some u
    | none => findUUID cs

/-- List shaped exactly like one UUID: the anchored UUID match consumes
all of it. -/
def uuidShape (u : List Char) : Bool := uuidAt u = some u

/-- Model of `extractRequestId` (index.ts lines 245-261): the first six
characters of the id after an explicit `RequestId: ` marker, else the
first six characters of the first bare UUID, else the placeholder. -/
def extractRequestId (message : List Char) : List Char :=
  match matchReqId message with
  | some id => id.take 6
  | none =>
    match findUUID message with
    | some u => u.take 6
    | none => "------".toList

/-- Millisecond multiplier table of `parseTimeFormat` (index.ts lines
234-239). -/
def multiplierMs : Char → Nat
  | 's' => 1000
  | 'm' => 60000
  | 'h' => 3600000
  | 'd' => 86400000
  | _ => 0

/-- Model of `Number.parseInt` on an all-digit decimal string. -/
def parseIntDec (ds : List Char) : Nat :=
  ds.foldl (fun acc c => acc * 10 + (c.toNat - '0'.toNat)) 0

/-- Match of the anchored regex `/^(\d+)([smhd])$/` (index.ts line 224):
a non-empty run of digits followed by exactly one unit character, and
nothing after. -/
def timeRegexMatch (s : List Char) : Option (List Char × Char) :=
  if (s.takeWhile Char.isDigit).isEmpty then none
  else
    match s.drop (s.takeWhile Char.isDigit).length with
    | [u] =>
      if u = 's' ∨ u = 'm' ∨ u = 'h' ∨ u = 'd' then
        some (s.takeWhile Char.isDigit, u)
      else none
    | _ => none

/-- Model of `parseTimeFormat` (index.ts lines 223-242): milliseconds on
a matching lookback string, a thrown error otherwise. -/
def parseTimeFormat (s : List Char) : Except (List Char) Nat :=
  match timeRegexMatch s with
  | none =>
    Except.error ("Invalid time format: ".toList ++ s ++
      ". Use formats like: 10s, 22m, 2h, 1d".toList)
  | some (amount, unit) => Except.ok (parseIntDec amount * multiplierMs unit)

/-- Initial fetch start time computed by `main` (index.ts lines 456-463):
`Date.now() - sinceMs`, with a parse failure propagated (it makes the
process exit non-zero). -/
def mainStartTime (now : Int) (since : List Char) : Except (List Char) Int :=
  (parseTimeFormat since).map (fun ms => now - (ms : Int))

/-! ## Lemmas about the streaming cursor -/

theorem le_foldl_max_init (a : Nat) (l : List Nat) : a ≤ l.foldl Nat.max a := by
  induction l generalizing a with
  | nil => exact Nat.le_refl a
  | cons x xs ih => exact Nat.le_trans (Nat.le_max_left a x) (ih (Nat.max a x))

theorem le_foldl_max (x a : Nat) (l : List Nat) (hx : x ∈ l) :
    x ≤ l.foldl Nat.max a := by
  induction l generalizing a with
  | nil => cases hx
  | cons y ys ih =>
    rcases List.mem_cons.mp hx with h | h
    · subst h
      exact Nat.le_trans (Nat.le_max_right a x) (le_foldl_max_init _ ys)
    · exact ih _ h

theorem foldl_max_mem (a : Nat) (l : List Nat) :
    l.foldl Nat.max a ∈ l ∨ l.foldl Nat.max a = a := by
  induction l generalizing a with
  | nil => right; rfl
  | cons x xs ih =>
    rcases ih (Nat.max a x) with h | h
    · left; exact List.mem_cons_of_mem x h
    · rcases max_choice a x with hm | hm
      · right; rw [List.foldl_cons, h]; exact hm
      · left
        rw [List.foldl_cons, h]
        have hx : a.max x = x := hm
        rw [hx]
        exact List.mem_cons_self x xs

theorem foldl_max_le (a b : Nat) (l : List Nat) (ha : a ≤ b)
    (hl : ∀ x ∈ l, x ≤ b) : l.foldl Nat.max a ≤ b := by
  induction l generalizing a with
  | nil => exact ha
  | cons x xs ih =>
    exact ih _ (Nat.max_le.mpr ⟨ha, hl x (List.mem_cons_self x xs)⟩)
      (fun y hy => hl y (List.mem_cons_of_mem x hy))

theorem mathMax_mem (l : List Nat) (hl : l ≠ []) : mathMax l ∈ l := by
  rcases foldl_max_mem 0 l with h | h
  · exact h
  · cases l with
    | nil => cases hl rfl
    | cons x xs =>
      have hx : x ≤ mathMax (x :: xs) :=
        le_foldl_max x 0 (x :: xs) (List.mem_cons_self x xs)
      have : x = 0 := Nat.le_antisymm (h ▸ hx) (Nat.zero_le x)
      rw [mathMax, h, ← this]
      exact List.mem_cons_self x xs

theorem le_mathMax (x : Nat) (l : List Nat) (hx : x ∈ l) : x ≤ mathMax l :=
  le_foldl_max x 0 l hx

theorem mathMax_perm {l₁ l₂ : List Nat} (p : List.Perm l₁ l₂) :
    mathMax l₁ = mathMax l₂ := by
  cases l₁ with
  | nil => rw [List.Perm.eq_nil p.symm]
  | cons x xs =>
    have h₂ : l₂ ≠ [] := by
      intro h
      subst h
      exact absurd p.eq_nil (by simp)
    apply Nat.le_antisymm
    · exact le_mathMax _ _ ((p.mem_iff).mp (mathMax_mem _ (by simp)))
    · exact le_mathMax _ _ ((p.mem_iff).mpr (mathMax_mem _ h₂))

/-- C1: in the streaming fetch loop, every non-empty batch sets the
cursor to the maximum event timestamp of the batch plus one, and this
assignment appears in the iteration trace strictly before any event of
the batch is emitted downstream; a batch whose timestamps are a
permutation of {100, 250, 180} yields cursor 251 regardless of batch
order. -/
theorem streamLogs_cursor_set_before_emit :
    (∀ (c : Nat) (evs : List LogEvent), evs ≠ [] →
      ∃ m, m ∈ evs.map eventTs ∧ (∀ t ∈ evs.map eventTs, t ≤ m) ∧
        iterTrace c (some evs) =
          StreamAction.setCursor (m + 1) ::
            (evs.map StreamAction.emit ++ [StreamAction.sleep])) ∧
    (∀ (c : Nat) (evs : List LogEvent),
      List.Perm (evs.map eventTs) [100, 250, 180] →
      iterTrace c (some evs) =
        StreamAction.setCursor 251 ::
          (evs.map StreamAction.emit ++ [StreamAction.sleep])) := by
  constructor
  · intro c evs hne
    refine ⟨mathMax (evs.map eventTs), ?_, ?_, ?_⟩
    · exact mathMax_mem _ (by simpa using hne)
    · exact fun t ht => le_mathMax t _ ht
    · have hemp : evs.isEmpty = false := by simpa using hne
      simp [iterTrace, nextCursor, hemp]
  · intro c evs hperm
    have hne : evs ≠ [] := by
      intro h
      subst h
      exact absurd hperm.length_eq (by simp)
    have hemp : evs.isEmpty = false := by simpa using hne
    have hmax : mathMax (evs.map eventTs) = 250 := by
      rw [mathMax_perm hperm]
      rfl
    simp [iterTrace, nextCursor, hemp, hmax]

/-- Witness for C1: the batch with timestamps 100, 250, 180 (in that
order) produces the cursor assignment 251 ahead of the three emits. -/
theorem streamLogs_cursor_set_before_emit_witness :
    iterTrace 0 (some [⟨some 100, []⟩, ⟨some 250, []⟩, ⟨some 180, []⟩]) =
      StreamAction.setCursor 251 ::
        (List.map StreamAction.emit
            [⟨some 100, []⟩, ⟨some 250, []⟩, ⟨some 180, []⟩] ++
          [StreamAction.sleep]) :=
  streamLogs_cursor_set_before_emit.2 0
    [⟨some 100, []⟩, ⟨some 250, []⟩, ⟨some 180, []⟩] (by decide)

/-- C2 counterexample: the cursor is not non-decreasing for every batch
sequence — a poll that returns a single event with no timestamp resets
the cursor from 100 to 1. -/
theorem streamLogs_cursor_nondecreasing_cex :
    ¬ ∀ (c : Nat) (b : Option (List LogEvent)), c ≤ nextCursor c b := by
  intro h
  exact absurd (h 100 (some [⟨none, []⟩])) (by decide)

/-- C2 (amended): provided every event of each returned batch carries a
present timestamp at least as large as the cursor at the start of the
iteration (the query's `startTime` contract), the cursor after an
iteration is at least its value before it. -/
theorem streamLogs_cursor_nondecreasing :
    ∀ (c : Nat) (b : Option (List LogEvent)),
      (∀ evs, b = some evs → ∀ e ∈ evs, ∃ t, e.timestamp = some t ∧ c ≤ t) →
      c ≤ nextCursor c b := by
  intro c b hb
  match b with
  | none => exact Nat.le_refl c
  | some evs =>
    cases hevs : evs.isEmpty with
    | true => simp [nextCursor, hevs]
    | false =>
      cases evs with
      | nil => simp at hevs
      | cons e es =>
        obtain ⟨t, ht, hct⟩ := hb (e :: es) rfl e (List.mem_cons_self e es)
        have hts : eventTs e = t := by simp [eventTs, ht]
        have h1 : t ≤ mathMax ((e :: es).map eventTs) :=
          le_mathMax t _ (by simp [← hts])
        have h2 : c ≤ mathMax ((e :: es).map eventTs) := Nat.le_trans hct h1
        simp [nextCursor, hevs] at h2 ⊢
        omega

/-- Witness for the amended C2: a batch holding one event time-stamped
150 advances the cursor from 100 to 151. -/
theorem streamLogs_cursor_nondecreasing_witness :
    (100 : Nat) ≤ nextCursor 100 (some [⟨some 150, []⟩]) := by
  apply streamLogs_cursor_nondecreasing
  intro evs hevs e he
  cases hevs
  have he' : e = ⟨some 150, []⟩ := by simpa using he
  subst he'
  exact ⟨150, rfl, by omega⟩

/-- C3: an iteration of the streaming loop whose poll returns an empty
or absent batch leaves the cursor unchanged, emits nothing, and only
sleeps. -/
theorem streamLogs_empty_batch_noop :
    ∀ c : Nat,
      (nextCursor c none = c ∧ iterTrace c none = [StreamAction.sleep]) ∧
      (nextCursor c (some []) = c ∧
        iterTrace c (some []) = [StreamAction.sleep]) := by
  intro c
  exact ⟨⟨rfl, rfl⟩, ⟨rfl, rfl⟩⟩

/-- C10: `e.timestamp ?? 0` treats an absent timestamp as 0, so a
non-empty batch in which every event lacks a timestamp sets the cursor
to 1, which can be strictly below the previous cursor value (here
100). -/
theorem streamLogs_absent_timestamps_cursor_one :
    (∀ (c : Nat) (evs : List LogEvent), evs ≠ [] →
      (∀ e ∈ evs, e.timestamp = none) → nextCursor c (some evs) = 1) ∧
    (nextCursor 100 (some [⟨none, []⟩]) = 1 ∧
      nextCursor 100 (some [⟨none, []⟩]) < 100) := by
  constructor
  · intro c evs hne hnone
    have hemp : evs.isEmpty = false := by simpa using hne
    have hzero : mathMax (evs.map eventTs) = 0 := by
      apply Nat.le_antisymm _ (Nat.zero_le _)
      apply foldl_max_le 0 0 _ (Nat.le_refl 0)
      intro x hx
      obtain ⟨e, he, hex⟩ := List.mem_map.mp hx
      rw [← hex]
      simp [eventTs, hnone e he]
    simp [nextCursor, hemp, hzero]
  · exact ⟨by decide, by decide⟩

/-- Witness for C10: two events without timestamps reset the cursor
to 1. -/
theorem streamLogs_absent_timestamps_cursor_one_witness :
    nextCursor 42 (some [⟨none, ['a']⟩, ⟨none, []⟩]) = 1 :=
  streamLogs_absent_timestamps_cursor_one.1 42 [⟨none, ['a']⟩, ⟨none, []⟩]
    (by decide) (by decide)

/-- C4: run against a source whose responses form a finite chain of
pages (every page before the last carries a continuation token, the last
does not), the bounded fetch follows the tokens to the end and returns
the concatenation of all pages' events in arrival order. -/
theorem fetchLogs_drains_all_pages :
    ∀ ps : List Page, isChain ps = true →
      fetchLoop ps = (ps.map (fun p => p.events.getD [])).flatten := by
  have hpe : ∀ p : Page, pageEvents p = p.events.getD [] := by
    intro p
    rcases p with ⟨es, tok⟩
    cases es with
    | none => rfl
    | some l =>
      cases l with
      | nil => rfl
      | cons x xs => rfl
  intro ps
  induction ps with
  | nil => intro h; simp [isChain] at h
  | cons p rest ih =>
    intro h
    cases rest with
    | nil =>
      have htok : p.nextToken = none := by
        simpa [isChain, Option.isNone_iff_eq_none] using h
      simp [fetchLoop, htok, hpe]
    | cons q rest' =>
      have h1 : p.nextToken.isSome = true ∧ isChain (q :: rest') = true := by
        simpa [isChain] using h
      obtain ⟨tok, htok⟩ := Option.isSome_iff_exists.mp h1.1
      have hstep : fetchLoop (p :: q :: rest') =
          pageEvents p ++ fetchLoop (q :: rest') := by
        simp [fetchLoop, htok]
      rw [hstep, ih h1.2, hpe]
      simp

/-- Witness for C4: a two-page chain (first page with a token and two
events, second with one event and no token) returns all three events in
arrival order. -/
theorem fetchLogs_drains_all_pages_witness :
    fetchLoop
        ([⟨some [⟨some 1, []⟩, ⟨some 2, []⟩], some ['t']⟩,
          ⟨some [⟨some 3, []⟩], none⟩] : List Page) =
      (List.map (fun p => p.events.getD [])
          ([⟨some [⟨some 1, []⟩, ⟨some 2, []⟩], some ['t']⟩,
            ⟨some [⟨some 3, []⟩], none⟩] : List Page)).flatten :=
  fetchLogs_drains_all_pages
    ([⟨some [⟨some 1, []⟩, ⟨some 2, []⟩], some ['t']⟩,
      ⟨some [⟨some 3, []⟩], none⟩] : List Page) (by decide)

/-! ## Lemmas about substring containment -/

theorem hasPre_iff (p l : List Char) :
    hasPre p l = true ↔ ∃ post, l = p ++ post := by
  induction p generalizing l with
  | nil => simp [hasPre]
  | cons c cs ih =>
    cases l with
    | nil => simp [hasPre]
    | cons x xs =>
      simp only [hasPre, Bool.and_eq_true, decide_eq_true_eq, ih,
        List.cons_append, List.cons.injEq]
      constructor
      · rintro ⟨h1, post, h2⟩
        exact ⟨post, h1.symm, h2⟩
      · rintro ⟨post, h1, h2⟩
        exact ⟨h1.symm, post, h2⟩

theorem containsSub_iff (h p : List Char) :
    containsSub h p = true ↔ ∃ pre post, h = pre ++ p ++ post := by
  induction h with
  | nil =>
    simp only [containsSub, List.isEmpty_iff]
    constructor
    · intro hp
      exact ⟨[], [], by simp [hp]⟩
    · rintro ⟨pre, post, hh⟩
      have h1 := List.append_eq_nil.mp hh.symm
      have h2 := List.append_eq_nil.mp h1.1
      exact h2.2
  | cons c t ih =>
    simp only [containsSub, Bool.or_eq_true, hasPre_iff, ih]
    constructor
    · rintro (⟨post, hpost⟩ | ⟨pre, post, hh⟩)
      · exact ⟨[], post, by simpa using hpost⟩
      · exact ⟨c :: pre, post, by simp [hh]⟩
    · rintro ⟨pre, post, hh⟩
      cases pre with
      | nil =>
        left
        exact ⟨post, by simpa using hh⟩
      | cons a pre' =>
        right
        simp only [List.cons_append, List.cons.injEq] at hh
        exact ⟨pre', post, hh.2⟩

/-- C5: a line is dimmed exactly when the filter is active, the pattern
is non-empty, and the lowercased raw message does not contain the
lowercased pattern as a substring; pattern "timeout" leaves
"Connection timeout after 30s" undimmed and dims "OK". -/
theorem shouldDimLine_iff :
    (∀ (st : FilterState) (message : List Char),
      shouldDimLine st message = true ↔
        st.isActive = true ∧ st.pattern ≠ [] ∧
          ¬ ∃ pre post,
            lowerStr message = pre ++ lowerStr st.pattern ++ post) ∧
    shouldDimLine ⟨"timeout".toList, true⟩
      "Connection timeout after 30s".toList = false ∧
    shouldDimLine ⟨"timeout".toList, true⟩ "OK".toList = true := by
  refine ⟨?_, by decide, by decide⟩
  intro st message
  rcases st with ⟨pat, act⟩
  cases act with
  | false => simp [shouldDimLine]
  | true =>
    cases pat with
    | nil => simp [shouldDimLine]
    | cons c cs =>
      have hiff := containsSub_iff (lowerStr message) (lowerStr (c :: cs))
      have hcond : shouldDimLine ⟨c :: cs, true⟩ message =
          !(containsSub (lowerStr message) (lowerStr (c :: cs))) := by
        simp [shouldDimLine]
      rw [hcond]
      constructor
      · intro hdim
        refine ⟨rfl, by simp, ?_⟩
        rintro ⟨pre, post, hsplit⟩
        rw [hiff.mpr ⟨pre, post, hsplit⟩] at hdim
        simp at hdim
      · rintro ⟨-, -, hnot⟩
        cases hcs : containsSub (lowerStr message) (lowerStr (c :: cs)) with
        | false => rfl
        | true => exact absurd (hiff.mp hcs) hnot

/-- C6: the level classifier agrees with first-match-wins scanning of
the fixed priority table ERROR > WARN > INFO > DEBUG > "START
RequestId:" > "END RequestId:" > "REPORT RequestId:" > "INIT_START",
with a blank tag when no marker occurs; a message containing "ERROR"
always classifies as the ERROR tag, regardless of a "WARN" also being
present. -/
theorem extractLogLevel_priority :
    (∀ message, extractLogLevel message = extractLogLevelSpec message) ∧
    (∀ message, containsSub message "ERROR".toList = true →
      extractLogLevel message = "ERR".toList) ∧
    extractLogLevel "a ERROR b WARN c".toList = "ERR".toList := by
  refine ⟨?_, ?_, by decide⟩
  · intro message
    unfold extractLogLevel extractLogLevelSpec levelTable
    simp only [List.find?]
    split_ifs <;> simp_all
  · intro message h
    simp only [extractLogLevel]
    rw [if_pos h]

/-- Witness for C6: "a ERROR b WARN c" contains "ERROR", so the
classifier assigns the ERROR tag. -/
theorem extractLogLevel_priority_witness :
    extractLogLevel "a ERROR b WARN c".toList = "ERR".toList :=
  extractLogLevel_priority.2.1 "a ERROR b WARN c".toList (by decide)

/-! ## Lemmas about the interactive filter state machine -/

theorem handleBackspace_inv (st : FilterState)
    (h : st.isActive = !st.pattern.isEmpty) :
    (handleBackspace st).isActive = !(handleBackspace st).pattern.isEmpty := by
  rcases st with ⟨pat, act⟩
  cases pat with
  | nil => simpa [handleBackspace] using h
  | cons c cs =>
    simp only [handleBackspace]
    rw [if_pos (by simp)]
    by_cases hp : (c :: cs).dropLast.length = 0
    · simp [hp, List.isEmpty_iff, List.length_eq_zero.mp hp]
    · have hne : (c :: cs).dropLast.isEmpty = false := by
        cases hdl : (c :: cs).dropLast with
        | nil => exact absurd (by simp [hdl]) hp
        | cons y ys => rfl
      have hact : act = true := by simpa using h
      have hcs : cs ≠ [] := by
        intro hcase
        subst hcase
        simp at hp
      simp [hp, hne, hact, hcs]

theorem handleKeyPress_inv (st : FilterState) (key : List Char)
    (h : st.isActive = !st.pattern.isEmpty) :
    (handleKeyPress st key).isActive =
      !(handleKeyPress st key).pattern.isEmpty := by
  unfold handleKeyPress
  split_ifs with h1 h2 h3 h4
  · exact h
  · exact handleBackspace_inv st h
  · exact handleBackspace_inv st h
  · simp [clearFilter]
  · match key with
    | [] => exact h
    | [c] =>
      by_cases hc : ' ' ≤ c ∧ c ≤ '~'
      · simp only [if_pos hc]
        simp [addToFilter]
      · simp only [if_neg hc]
        exact h
    | c :: d :: k => exact h

theorem runKeys_inv (keys : List (List Char)) :
    (runKeys keys).isActive = !(runKeys keys).pattern.isEmpty := by
  have main : ∀ (ks : List (List Char)) (st : FilterState),
      st.isActive = !st.pattern.isEmpty →
      (ks.foldl handleKeyPress st).isActive =
        !(ks.foldl handleKeyPress st).pattern.isEmpty := by
    intro ks
    induction ks with
    | nil => intro st h; exact h
    | cons k ks ih =>
      intro st h
      exact ih (handleKeyPress st k) (handleKeyPress_inv st k h)
  exact main keys initFilterState rfl

/-- C8: after any sequence of keystrokes from the initial empty-inactive
state, the activity flag equals "the pattern is non-empty"; backspace on
an empty pattern is a no-op, and after only a backspace keystroke the
filter is still inactive with an empty pattern. -/
theorem filter_activity_flag :
    (∀ keys : List (List Char),
      (runKeys keys).isActive = !(runKeys keys).pattern.isEmpty) ∧
    (∀ st : FilterState, st.pattern = [] → handleBackspace st = st) ∧
    runKeys [[delChar]] = initFilterState := by
  refine ⟨runKeys_inv, ?_, ?_⟩
  · intro st hp
    rcases st with ⟨pat, act⟩
    simp only at hp
    subst hp
    simp [handleBackspace]
  · decide

/-- Witness for C8: backspacing an already-empty inactive filter leaves
it unchanged. -/
theorem filter_activity_flag_witness :
    handleBackspace ⟨[], false⟩ = ⟨[], false⟩ :=
  filter_activity_flag.2.1 ⟨[], false⟩ rfl

/-! ## Lemmas about the lookback parser -/

theorem takeWhile_append_of (p : Char → Bool) (l r : List Char)
    (hl : ∀ c ∈ l, p c = true)
    (hr : Option.all (fun c => !(p c)) r.head? = true) :
    (l ++ r).takeWhile p = l := by
  induction l with
  | nil =>
    cases r with
    | nil => rfl
    | cons x xs =>
      have hx : p x = false := by simpa using hr
      simp [List.takeWhile_cons, hx]
  | cons x xs ih =>
    have hx : p x = true := hl x (List.mem_cons_self x xs)
    simp [List.takeWhile_cons, hx,
      ih (fun c hc => hl c (List.mem_cons_of_mem x hc))]

theorem timeRegexMatch_found (ds : List Char) (u : Char) (hne : ds ≠ [])
    (hds : ∀ c ∈ ds, c.isDigit = true)
    (hu : u = 's' ∨ u = 'm' ∨ u = 'h' ∨ u = 'd') :
    timeRegexMatch (ds ++ [u]) = some (ds, u) := by
  have hu' : u.isDigit = false := by
    rcases hu with h | h | h | h <;> subst h <;> decide
  have htw : (ds ++ [u]).takeWhile Char.isDigit = ds :=
    takeWhile_append_of _ ds [u] hds (by simp [hu'])
  have hdrop : (ds ++ [u]).drop ds.length = [u] := List.drop_left ds [u]
  have hempty : ¬ ds.isEmpty = true := by simpa using hne
  unfold timeRegexMatch
  rw [htw, hdrop, if_neg hempty]
  simp [hu]

theorem timeRegexMatch_shape (s : List Char) (ds : List Char) (u : Char)
    (h : timeRegexMatch s = some (ds, u)) :
    s = ds ++ [u] ∧ ds ≠ [] ∧ (∀ c ∈ ds, c.isDigit = true) ∧
      (u = 's' ∨ u = 'm' ∨ u = 'h' ∨ u = 'd') := by
  unfold timeRegexMatch at h
  by_cases hempty : (s.takeWhile Char.isDigit).isEmpty
  · simp [hempty] at h
  · rw [if_neg hempty] at h
    cases hdrop : s.drop (s.takeWhile Char.isDigit).length with
    | nil => rw [hdrop] at h; exact Option.noConfusion h
    | cons v vs =>
      cases vs with
      | cons w ws => rw [hdrop] at h; exact Option.noConfusion h
      | nil =>
        rw [hdrop] at h
        replace h : (if v = 's' ∨ v = 'm' ∨ v = 'h' ∨ v = 'd' then
            some (s.takeWhile Char.isDigit, v)
          else none) = some (ds, u) := h
        by_cases hv : v = 's' ∨ v = 'm' ∨ v = 'h' ∨ v = 'd'
        · rw [if_pos hv] at h
          have hp := Option.some.inj h
          have hds : s.takeWhile Char.isDigit = ds := congrArg Prod.fst hp
          have hvu : v = u := congrArg Prod.snd hp
          subst hvu
          obtain ⟨t, ht⟩ := List.takeWhile_prefix (l := s) Char.isDigit
          refine ⟨?_, ?_, ?_, hv⟩
          · have htv : t = [v] := by
              have hdl := List.drop_left (s.takeWhile Char.isDigit) t
              rw [ht] at hdl
              rw [← hdl, hdrop]
            rw [← hds, ← htv]
            exact ht.symm
          · intro hnil
            exact hempty (by rw [hds, hnil]; rfl)
          · intro c hc
            rw [← hds] at hc
            exact List.mem_takeWhile_imp hc
        · rw [if_neg hv] at h
          exact Option.noConfusion h

/-- C9: the lookback parser succeeds exactly on strings of shape
`^\d+[smhd]$`, converting them with the multipliers 1000, 60000,
3600000, 86400000 milliseconds, and fails with an error on everything
else; the initial fetch start time for lookback "2h" at now-instant T is
exactly T - 7200000 ms. -/
theorem parseTimeFormat_spec :
    (∀ s : List Char, (parseTimeFormat s).isOk = true ↔
      ∃ ds u, s = ds ++ [u] ∧ ds ≠ [] ∧ (∀ c ∈ ds, c.isDigit = true) ∧
        (u = 's' ∨ u = 'm' ∨ u = 'h' ∨ u = 'd')) ∧
    (∀ (ds : List Char) (u : Char), ds ≠ [] → (∀ c ∈ ds, c.isDigit = true) →
      (u = 's' ∨ u = 'm' ∨ u = 'h' ∨ u = 'd') →
      parseTimeFormat (ds ++ [u]) =
        Except.ok (parseIntDec ds * multiplierMs u)) ∧
    (multiplierMs 's' = 1000 ∧ multiplierMs 'm' = 60000 ∧
      multiplierMs 'h' = 3600000 ∧ multiplierMs 'd' = 86400000) ∧
    (∀ T : Int, mainStartTime T "2h".toList = Except.ok (T - 7200000)) := by
  refine ⟨?_, ?_, ⟨rfl, rfl, rfl, rfl⟩, ?_⟩
  · intro s
    constructor
    · intro hok
      unfold parseTimeFormat at hok
      cases hm : timeRegexMatch s with
      | none => rw [hm] at hok; simp [Except.isOk, Except.toBool] at hok
      | some du =>
        obtain ⟨ds, u⟩ := du
        obtain ⟨hs, hne, hds, hu⟩ := timeRegexMatch_shape s ds u hm
        exact ⟨ds, u, hs, hne, hds, hu⟩
    · rintro ⟨ds, u, hs, hne, hds, hu⟩
      subst hs
      unfold parseTimeFormat
      rw [timeRegexMatch_found ds u hne hds hu]
      rfl
  · intro ds u hne hds hu
    unfold parseTimeFormat
    rw [timeRegexMatch_found ds u hne hds hu]
  · intro T
    unfold mainStartTime
    rw [show parseTimeFormat "2h".toList = Except.ok 7200000 from rfl]
    show Except.ok (T - ((7200000 : Nat) : Int)) = Except.ok (T - 7200000)
    norm_num

/-- Witness for C9: "2h" parses to 7,200,000 ms and anchors the initial
fetch 7,200,000 ms before the fixed now-instant 10,000,000. -/
theorem parseTimeFormat_spec_witness :
    (parseTimeFormat "2h".toList).isOk = true ∧
    parseTimeFormat ("2".toList ++ ['h']) =
      Except.ok (parseIntDec "2".toList * multiplierMs 'h') ∧
    mainStartTime 10000000 "2h".toList = Except.ok (10000000 - 7200000) :=
  ⟨(parseTimeFormat_spec.1 "2h".toList).mpr
      ⟨['2'], 'h', rfl, by decide, by decide, by decide⟩,
    parseTimeFormat_spec.2.1 "2".toList 'h' (by decide) (by decide)
      (by decide),
    parseTimeFormat_spec.2.2.2 10000000⟩

/-! ## Lemmas about the request-id extractor -/

theorem dropPre_self (p rest : List Char) : dropPre p (p ++ rest) = some rest := by
  induction p with
  | nil => rfl
  | cons c cs ih => simp [dropPre, ih]

theorem dropPre_marker_ne (x : Char) (xs : List Char) (hx : x ≠ 'R') :
    dropPre reqIdMarker (x :: xs) = none := by
  have hR : ¬ ('R' = x) := fun h => hx h.symm
  simp [reqIdMarker, dropPre, hR]

theorem matchReqId_cons (c : Char) (cs : List Char) :
    matchReqId (c :: cs) =
      match dropPre reqIdMarker (c :: cs) with
      | some rest =>
        if (rest.takeWhile isIdChar).isEmpty then matchReqId cs
        else some (rest.takeWhile isIdChar)
      | none => matchReqId cs := rfl

theorem matchReqId_none_of_no_R (l : List Char) (h : ∀ c ∈ l, c ≠ 'R') :
    matchReqId l = none := by
  induction l with
  | nil => rfl
  | cons c cs ih =>
    rw [matchReqId_cons, dropPre_marker_ne c cs (h c (List.mem_cons_self c cs))]
    exact ih (fun x hx => h x (List.mem_cons_of_mem c hx))

theorem matchReqId_found (pre id rest : List Char)
    (hpre : ∀ c ∈ pre, c ≠ 'R') (hne : id ≠ [])
    (hid : ∀ c ∈ id, isIdChar c = true)
    (hrest : Option.all (fun c => !(isIdChar c)) rest.head? = true) :
    matchReqId (pre ++ (reqIdMarker ++ (id ++ rest))) = some id := by
  induction pre with
  | nil =>
    have htw : (id ++ rest).takeWhile isIdChar = id :=
      takeWhile_append_of _ id rest hid hrest
    have hform : reqIdMarker ++ (id ++ rest) =
        'R' :: ("equestId: ".toList ++ (id ++ rest)) := rfl
    rw [List.nil_append, hform, matchReqId_cons, ← hform, dropPre_self]
    show (if ((id ++ rest).takeWhile isIdChar).isEmpty = true
        then matchReqId ("equestId: ".toList ++ (id ++ rest))
        else some ((id ++ rest).takeWhile isIdChar)) = some id
    rw [htw]
    have hemp : id.isEmpty = false := by simpa using hne
    simp [hemp]
  | cons x pre' ih =>
    rw [List.cons_append, matchReqId_cons,
      dropPre_marker_ne x _ (hpre x (List.mem_cons_self x pre'))]
    exact ih (fun c hc => hpre c (List.mem_cons_of_mem x hc))

theorem takeHex_sound (n : Nat) (l s r : List Char)
    (h : takeHex n l = some (s, r)) :
    l = s ++ r ∧ ∀ c ∈ s, isHexChar c = true := by
  induction n generalizing l s with
  | zero =>
    simp only [takeHex, Option.some.injEq, Prod.mk.injEq] at h
    obtain ⟨hs, hr⟩ := h
    subst hs
    subst hr
    exact ⟨rfl, by simp⟩
  | succ n ih =>
    cases l with
    | nil => exact Option.noConfusion h
    | cons c cs =>
      simp only [takeHex] at h
      by_cases hc : isHexChar c = true
      · rw [if_pos hc, Option.map_eq_some'] at h
        obtain ⟨⟨s', r'⟩, hh, heq⟩ := h
        obtain ⟨hs, hr⟩ := Prod.mk.injEq .. ▸ heq
        subst hs
        subst hr
        obtain ⟨hl, hchars⟩ := ih cs s' hh
        refine ⟨by simp [hl], ?_⟩
        intro x hx
        rcases List.mem_cons.mp hx with h1 | h1
        · rw [h1]; exact hc
        · exact hchars x h1
      · rw [if_neg hc] at h
        exact Option.noConfusion h

theorem takeHex_append (n : Nat) (l s r t : List Char)
    (h : takeHex n l = some (s, r)) :
    takeHex n (l ++ t) = some (s, r ++ t) := by
  induction n generalizing l s with
  | zero =>
    simp only [takeHex, Option.some.injEq, Prod.mk.injEq] at h
    obtain ⟨hs, hr⟩ := h
    subst hs
    subst hr
    rfl
  | succ n ih =>
    cases l with
    | nil => exact Option.noConfusion h
    | cons c cs =>
      simp only [takeHex] at h ⊢
      by_cases hc : isHexChar c = true
      · rw [if_pos hc, Option.map_eq_some'] at h
        obtain ⟨⟨s', r'⟩, hh, heq⟩ := h
        obtain ⟨hs, hr⟩ := Prod.mk.injEq .. ▸ heq
        subst hs
        subst hr
        rw [if_pos hc, show List.append cs t = cs ++ t from rfl, ih cs s' hh]
        rfl
      · rw [if_neg hc] at h
        exact Option.noConfusion h

theorem takeHex_head (n : Nat) (l s r : List Char)
    (h : takeHex (n + 1) l = some (s, r)) :
    ∃ c cs, l = c :: cs ∧ isHexChar c = true := by
  cases l with
  | nil => exact Option.noConfusion h
  | cons c cs =>
    refine ⟨c, cs, rfl, ?_⟩
    by_cases hc : isHexChar c = true
    · exact hc
    · simp only [takeHex, if_neg hc] at h
      exact Option.noConfusion h

theorem expectDash_sound (l r : List Char) (h : expectDash l = some r) :
    l = '-' :: r := by
  cases l with
  | nil => exact Option.noConfusion h
  | cons c cs =>
    simp only [expectDash] at h
    by_cases hc : c = '-'
    · rw [if_pos hc] at h
      rw [hc, Option.some.inj h]
    · rw [if_neg hc] at h
      exact Option.noConfusion h

theorem expectDash_append (l r t : List Char) (h : expectDash l = some r) :
    expectDash (l ++ t) = some (r ++ t) := by
  have := expectDash_sound l r h
  subst this
  simp [expectDash]

theorem uuidSegs_append (ns : List Nat) (l t u : List Char)
    (h : uuidSegs ns l = some u) : uuidSegs ns (l ++ t) = some u := by
  induction ns generalizing l u with
  | nil =>
    simp only [uuidSegs] at h ⊢
    exact h
  | cons n ns' ih =>
    cases ns' with
    | nil =>
      simp only [uuidSegs, Option.map_eq_some'] at h ⊢
      obtain ⟨⟨s', r'⟩, hh, heq⟩ := h
      exact ⟨(s', r' ++ t), takeHex_append n l s' r' t hh, heq⟩
    | cons m ns'' =>
      simp only [uuidSegs] at h ⊢
      cases h1 : takeHex n l with
      | none => rw [h1] at h; exact Option.noConfusion h
      | some sr =>
        obtain ⟨s1, r1⟩ := sr
        rw [h1] at h
        replace h : (match expectDash r1 with
          | none => none
          | some r2 =>
            match uuidSegs (m :: ns'') r2 with
            | none => none
            | some tail => some (s1 ++ '-' :: tail)) = some u := h
        cases h2 : expectDash r1 with
        | none => rw [h2] at h; exact Option.noConfusion h
        | some r2 =>
          rw [h2] at h
          replace h : (match uuidSegs (m :: ns'') r2 with
            | none => none
            | some tail => some (s1 ++ '-' :: tail)) = some u := h
          cases h3 : uuidSegs (m :: ns'') r2 with
          | none => rw [h3] at h; exact Option.noConfusion h
          | some tail =>
            rw [h3] at h
            rw [takeHex_append n l s1 r1 t h1]
            show (match expectDash (r1 ++ t) with
              | none => none
              | some r2 =>
                match uuidSegs (m :: ns'') r2 with
                | none => none
                | some tail => some (s1 ++ '-' :: tail)) = some u
            rw [expectDash_append r1 r2 t h2]
            show (match uuidSegs (m :: ns'') (r2 ++ t) with
              | none => none
              | some tail => some (s1 ++ '-' :: tail)) = some u
            rw [ih r2 tail h3]
            exact h

theorem uuidSegs_chars (ns : List Nat) (l u : List Char)
    (h : uuidSegs ns l = some u) :
    ∀ c ∈ u, isHexChar c = true ∨ c = '-' := by
  induction ns generalizing l u with
  | nil =>
    simp only [uuidSegs, Option.some.injEq] at h
    subst h
    intro c hc
    cases hc
  | cons n ns' ih =>
    cases ns' with
    | nil =>
      simp only [uuidSegs, Option.map_eq_some'] at h
      obtain ⟨⟨s', r'⟩, hh, heq⟩ := h
      subst heq
      intro c hc
      exact Or.inl ((takeHex_sound n l s' r' hh).2 c hc)
    | cons m ns'' =>
      simp only [uuidSegs] at h
      cases h1 : takeHex n l with
      | none => rw [h1] at h; exact Option.noConfusion h
      | some sr =>
        obtain ⟨s1, r1⟩ := sr
        rw [h1] at h
        replace h : (match expectDash r1 with
          | none => none
          | some r2 =>
            match uuidSegs (m :: ns'') r2 with
            | none => none
            | some tail => some (s1 ++ '-' :: tail)) = some u := h
        cases h2 : expectDash r1 with
        | none => rw [h2] at h; exact Option.noConfusion h
        | some r2 =>
          rw [h2] at h
          replace h : (match uuidSegs (m :: ns'') r2 with
            | none => none
            | some tail => some (s1 ++ '-' :: tail)) = some u := h
          cases h3 : uuidSegs (m :: ns'') r2 with
          | none => rw [h3] at h; exact Option.noConfusion h
          | some tail =>
            rw [h3] at h
            replace h := Option.some.inj h
            subst h
            intro c hc
            rcases List.mem_append.mp hc with h4 | h4
            · exact Or.inl ((takeHex_sound n l s1 r1 h1).2 c h4)
            · rcases List.mem_cons.mp h4 with h5 | h5
              · exact Or.inr h5
              · exact ih r2 tail h3 c h5

theorem uuidAt_head (l u : List Char) (h : uuidAt l = some u) :
    ∃ c cs, l = c :: cs ∧ isHexChar c = true := by
  simp only [uuidAt, uuidSegLens, uuidSegs] at h
  cases h1 : takeHex 8 l with
  | none => rw [h1] at h; exact Option.noConfusion h
  | some sr =>
    obtain ⟨s1, r1⟩ := sr
    exact takeHex_head 7 l s1 r1 h1

theorem uuidAt_cons_not_hex (c : Char) (cs : List Char)
    (hc : isHexChar c = false) : uuidAt (c :: cs) = none := by
  cases hu : uuidAt (c :: cs) with
  | none => rfl
  | some u =>
    obtain ⟨c', cs', hcc, hhex⟩ := uuidAt_head _ _ hu
    have hc' : c = c' := (List.cons.injEq .. ▸ hcc).1
    rw [← hc', hc] at hhex
    exact Bool.noConfusion hhex

theorem findUUID_none (l : List Char) (h : ∀ c ∈ l, isHexChar c = false) :
    findUUID l = none := by
  induction l with
  | nil => rfl
  | cons c cs ih =>
    simp only [findUUID,
      uuidAt_cons_not_hex c cs (h c (List.mem_cons_self c cs))]
    exact ih (fun x hx => h x (List.mem_cons_of_mem c hx))

theorem findUUID_found (pre l u : List Char)
    (hpre : ∀ c ∈ pre, isHexChar c = false)
    (hl : uuidAt l = some u) :
    findUUID (pre ++ l) = some u := by
  induction pre with
  | nil =>
    rw [List.nil_append]
    cases l with
    | nil =>
      rw [show uuidAt ([] : List Char) = none from rfl] at hl
      exact Option.noConfusion hl
    | cons c cs => simp [findUUID, hl]
  | cons x pre' ih =>
    rw [List.cons_append]
    simp only [findUUID,
      uuidAt_cons_not_hex x _ (hpre x (List.mem_cons_self x pre'))]
    exact ih (fun c hc => hpre c (List.mem_cons_of_mem x hc))

/-- C7: the correlation-token extractor returns the first six characters
of the id following the leftmost "RequestId: " marker when one is
present (the id being a non-empty maximal run of `[a-f0-9-]`
characters); failing that, the first six characters of the first bare
UUID-shaped substring; failing both, the fixed placeholder "------". -/
theorem extractRequestId_spec :
    (∀ pre id rest : List Char, (∀ c ∈ pre, c ≠ 'R') → id ≠ [] →
      (∀ c ∈ id, isIdChar c = true) →
      Option.all (fun c => !(isIdChar c)) rest.head? = true →
      extractRequestId (pre ++ (reqIdMarker ++ (id ++ rest))) = id.take 6) ∧
    (∀ pre uuid rest : List Char,
      (∀ c ∈ pre, isHexChar c = false ∧ c ≠ 'R') →
      uuidShape uuid = true →
      (∀ c ∈ rest, c ≠ 'R') →
      extractRequestId (pre ++ (uuid ++ rest)) = uuid.take 6) ∧
    (∀ message : List Char, matchReqId message = none →
      findUUID message = none →
      extractRequestId message = "------".toList) ∧
    (∀ message : List Char,
      (∀ c ∈ message, isHexChar c = false ∧ c ≠ 'R') →
      extractRequestId message = "------".toList) := by
  have hunfold : ∀ message : List Char, extractRequestId message =
      match matchReqId message with
      | some id => id.take 6
      | none =>
        match findUUID message with
        | some u => u.take 6
        | none => "------".toList := fun _ => rfl
  refine ⟨?_, ?_, ?_, ?_⟩
  · intro pre id rest hpre hne hid hrest
    rw [hunfold, matchReqId_found pre id rest hpre hne hid hrest]
  · intro pre uuid rest hpre hshape hrest
    have huuid : uuidAt uuid = some uuid := by
      simpa [uuidShape] using hshape
    have huchars : ∀ c ∈ uuid, c ≠ 'R' := by
      intro c hc hR
      rcases uuidSegs_chars uuidSegLens uuid uuid huuid c hc with hx | hx
      · subst hR; exact Bool.noConfusion ((by decide : isHexChar 'R' = false) ▸ hx)
      · subst hR; exact absurd hx (by decide)
    have hnoR : ∀ c ∈ pre ++ (uuid ++ rest), c ≠ 'R' := by
      intro c hc
      rcases List.mem_append.mp hc with h1 | h1
      · exact (hpre c h1).2
      · rcases List.mem_append.mp h1 with h2 | h2
        · exact huchars c h2
        · exact hrest c h2
    have hfind : findUUID (pre ++ (uuid ++ rest)) = some uuid :=
      findUUID_found pre (uuid ++ rest) uuid (fun c hc => (hpre c hc).1)
        (uuidSegs_append uuidSegLens uuid rest uuid huuid)
    rw [hunfold, matchReqId_none_of_no_R _ hnoR, hfind]
  · intro message hm hf
    rw [hunfold, hm, hf]
  · intro message hmsg
    rw [hunfold, matchReqId_none_of_no_R _ (fun c hc => (hmsg c hc).2),
      findUUID_none _ (fun c hc => (hmsg c hc).1)]

/-- Witness for C7: a marker id yields its first six characters, a bare
UUID yields its first six characters, and a message with neither yields
the placeholder. -/
theorem extractRequestId_spec_witness :
    extractRequestId
        ([] ++ (reqIdMarker ++ ("abcdef12-3456".toList ++ " x".toList))) =
      ("abcdef12-3456".toList).take 6 ∧
    extractRequestId
        ("zz ".toList ++
          ("01234567-89ab-cdef-0123-456789abcdef".toList ++
            " tail".toList)) =
      ("01234567-89ab-cdef-0123-456789abcdef".toList).take 6 ∧
    extractRequestId "SYSTEM UP".toList = "------".toList :=
  ⟨extractRequestId_spec.1 [] "abcdef12-3456".toList " x".toList
      (by decide) (by decide) (by decide) (by decide),
    extractRequestId_spec.2.1 "zz ".toList
      "01234567-89ab-cdef-0123-456789abcdef".toList " tail".toList
      (by decide) (by decide) (by decide),
    extractRequestId_spec.2.2.2 "SYSTEM UP".toList (by decide)⟩
